import Mathlib

/-!
Shallow embedding of `src/scripts/python/file-organizer/Organazer.py`.

The filesystem is modelled as an association list from paths to file data
(size, readable content or `none` for an unreadable file, mtime) together
with a list of existing directories.  The MD5 digest is an abstract
parameter `md5 : String → String` and `datetime.now().strftime(...)` is an
abstract timestamp parameter `ts : String`.  Statistics, the per-run hash
cache, the unique-name loop, per-file processing, the organizing pass and
the bulk deduplication pass are translated line by line from the source.
-/

namespace Organizer

/-- A filesystem path: the containing directory and the file name. -/
structure FPath where
  dir : String
  name : String
deriving DecidableEq

/-- One file's data: size in bytes, content (`none` means the file cannot be
read, as when `open`/`read` raises `IOError`), and modification time. -/
structure FileData where
  size : Nat
  content : Option String
  mtime : Nat
deriving DecidableEq

/-- The files of the filesystem, as an association list keyed by path. -/
abbrev FS := List (FPath × FileData)

/-- The per-run hash cache `self.hash_cache`, keyed by path. -/
abbrev Cache := List (FPath × String)

def fsLookup (files : FS) (p : FPath) : Option FileData :=
  (files.find? (fun e => e.1 == p)).map (fun e => e.2)

def fsRemove (files : FS) (p : FPath) : FS :=
  files.filter (fun e => !(e.1 == p))

def fsInsert (files : FS) (p : FPath) (d : FileData) : FS :=
  (p, d) :: fsRemove files p

def cacheLookup (cache : Cache) (p : FPath) : Option String :=
  (cache.find? (fun e => e.1 == p)).map (fun e => e.2)

/-- The `self.stats` counters of `FileOrganizer`. -/
structure Stats where
  processed : Nat
  moved : Nat
  renamed : Nat
  duplicates_found : Nat
  duplicates_removed : Nat
  errors : Nat
  skipped : Nat
deriving DecidableEq

def Stats.zero : Stats := ⟨0, 0, 0, 0, 0, 0, 0⟩

/-- The whole mutable state of one run: the filesystem (files and
directories), the hash cache and the statistics. -/
structure RunSt where
  files : FS
  dirs : List String
  cache : Cache
  stats : Stats
deriving DecidableEq

/-- `str.lower()` on one ASCII character. -/
def lowerChar (c : Char) : Char :=
  if 65 ≤ c.toNat && c.toNat ≤ 90 then Char.ofNat (c.toNat + 32) else c

/-- `str.lower()`. -/
def lowerStr (s : String) : String := ⟨s.data.map lowerChar⟩

/-- `name.startswith('.')`. -/
def hiddenName (s : String) : Bool :=
  match s.data with
  | [] => false
  | c :: _ => c == '.'

/-- `original_name.rsplit('.', 1)` turned into the pair
`(base_name, extension)` exactly as lines 84-86 compute it: the extension
keeps its leading dot and is empty when the name has no dot. -/
def splitExt (name : String) : String × String :=
  let rev := name.data.reverse
  if rev.contains '.' then
    (⟨((rev.dropWhile (fun c => !(c == '.'))).drop 1).reverse⟩,
     ⟨'.' :: (rev.takeWhile (fun c => !(c == '.'))).reverse⟩)
  else (name, "")

/-- `pathlib.PurePath.suffix`: the extension from the last dot, empty when
the last dot is the first character or the final character. -/
def psuffix (name : String) : String :=
  let cs := name.data
  let rev := cs.reverse
  if rev.contains '.' then
    let i := cs.length - 1 - rev.findIdx (fun c => c == '.')
    if 0 < i ∧ i < cs.length - 1 then ⟨cs.drop i⟩ else ""
  else ""

/-- `get_file_hash` (lines 23-38): the MD5 digest of the file's content, or
the empty string when the file is missing or cannot be read. -/
def get_file_hash (md5 : String → String) (files : FS) (p : FPath) : String :=
  match fsLookup files p with
  | none => ""
  | some d =>
    match d.content with
    | none => ""
    | some c => md5 c

/-- The cached-hash pattern of lines 140-148: use the cached digest when
present, otherwise compute it with `get_file_hash` and store it. -/
def hashWithCache (md5 : String → String) (files : FS) (cache : Cache) (p : FPath) :
    String × Cache :=
  match cacheLookup cache p with
  | some h => (h, cache)
  | none =>
    let h := get_file_hash md5 files p
    (h, cache ++ [(p, h)])

/-- `is_exact_duplicate` (lines 127-150): returns `False` when either
`stat` fails, when the sizes differ, or when either digest is empty;
returns `True` exactly when both digests are non-empty and equal.  Also
returns the updated hash cache. -/
def is_exact_duplicate (md5 : String → String) (files : FS) (cache : Cache)
    (file1 file2 : FPath) : Bool × Cache :=
  match fsLookup files file1, fsLookup files file2 with
  | some d1, some d2 =>
    if d1.size ≠ d2.size then (false, cache)
    else
      let r1 := hashWithCache md5 files cache file1
      let r2 := hashWithCache md5 files r1.2 file2
      ((!(r1.1 == "")) && (!(r2.1 == "")) && (r1.1 == r2.1), r2.2)
  | _, _ => (false, cache)

/-- `get_category_mappings` (lines 41-58), in insertion order. -/
def categories : List (String × List String) := [
  ("Images", [".jpg", ".jpeg", ".png", ".gif", ".bmp", ".svg", ".webp", ".tiff"]),
  ("Documents", [".pdf", ".docx", ".doc", ".txt", ".rtf", ".xlsx", ".xls", ".pptx", ".odt", ".odp", ".ods"]),
  ("Archives", [".zip", ".rar", ".7z", ".tar", ".gz", ".bz2", ".xz"]),
  ("Scripts", [".py", ".js", ".java", ".cpp", ".c", ".h", ".html", ".css", ".php", ".sh", ".bat"]),
  ("Videos", [".mp4", ".avi", ".mov", ".mkv", ".wmv", ".flv", ".webm", ".m4v"]),
  ("Audio", [".mp3", ".wav", ".flac", ".aac", ".ogg", ".m4a", ".wma"]),
  ("Executables", [".exe", ".msi", ".dmg", ".apk", ".app", ".deb", ".rpm"]),
  ("Fonts", [".ttf", ".otf", ".woff", ".woff2", ".eot"]),
  ("Data", [".csv", ".json", ".xml", ".sql", ".db", ".sqlite", ".yaml", ".yml"]),
  ("Presentations", [".ppt", ".pptx", ".key"]),
  ("Ebooks", [".epub", ".mobi", ".azw3"]),
  ("Torrents", [".torrent"]),
  ("Certificates", [".pem", ".crt", ".key", ".cer", ".pfx"]),
  ("Configs", [".ini", ".cfg", ".conf", ".properties"])]

/-- Outcome of `get_unique_filename`: the returned value (`none` means the
source file was a duplicate and is not to be moved), the updated
filesystem, cache and statistics, and the number of executed iterations of
the `while new_path.exists()` loop. -/
structure GufRes where
  result : Option FPath
  files : FS
  cache : Cache
  stats : Stats
  iters : Nat
deriving DecidableEq

/-- The `while new_path.exists()` loop of `get_unique_filename`
(lines 93-123).  `counter` starts at 1; each round either detects an exact
duplicate (deleting the source file unless `dry_run`), or tries the next
numeric-suffix candidate; once `counter` passes 100 the timestamp-suffix
name is forced and the loop breaks without re-checking occupancy.

The recursion is structural on an added `fuel` argument so that the
function computes by kernel reduction; `get_unique_filename` passes
`fuel = 101`, and the iteration bound proved below shows the loop always
breaks through the `100 < counter + 1` timestamp fallback before the fuel
runs out, so the `fuel = 0` arm (which returns the same fallback name) is
unreachable from the entry point. -/
def guf_loop (md5 : String → String) (ts : String) (dry_run : Bool) (file_path : FPath)
    (target_folder : String) (base_name extension : String) :
    Nat → FS → Cache → Stats → Nat → FPath → GufRes
  | 0, files, cache, stats, _, _ =>
    ⟨some ⟨target_folder, base_name ++ "_" ++ ts ++ extension⟩, files, cache, stats, 0⟩
  | fuel + 1, files, cache, stats, counter, new_path =>
    if (fsLookup files new_path).isSome then
      let dup := is_exact_duplicate md5 files cache file_path new_path
      if dup.1 then
        let stats1 := { stats with duplicates_found := stats.duplicates_found + 1 }
        if dry_run then
          ⟨none, files, dup.2, stats1, 1⟩
        else if (fsLookup files file_path).isSome then
          ⟨none, fsRemove files file_path, dup.2,
            { stats1 with duplicates_removed := stats1.duplicates_removed + 1 }, 1⟩
        else
          ⟨none, files, dup.2, { stats1 with errors := stats1.errors + 1 }, 1⟩
      else
        let new_name := base_name ++ "_" ++ toString counter ++ extension
        if 100 < counter + 1 then
          ⟨some ⟨target_folder, base_name ++ "_" ++ ts ++ extension⟩, files, dup.2, stats, 1⟩
        else
          let r := guf_loop md5 ts dry_run file_path target_folder base_name extension
            fuel files dup.2 stats (counter + 1) ⟨target_folder, new_name⟩
          { r with iters := r.iters + 1 }
    else
      ⟨some new_path, files, cache, stats, 0⟩

/-- `get_unique_filename` (lines 78-125). -/
def get_unique_filename (md5 : String → String) (ts : String) (dry_run : Bool)
    (files : FS) (cache : Cache) (stats : Stats) (file_path : FPath)
    (target_folder : String) : GufRes :=
  guf_loop md5 ts dry_run file_path target_folder
    (splitExt file_path.name).1 (splitExt file_path.name).2
    101 files cache stats 1 ⟨target_folder, file_path.name⟩

/-- The body of the matched-category branch of `process_file`
(lines 206-246): resolve a unique destination and move the file (or accept
the duplicate deletion performed inside `get_unique_filename`). -/
def handle_category (md5 : String → String) (ts : String) (dry_run : Bool)
    (source_folder : String) (st : RunSt) (file_path : FPath) (category : String) :
    RunSt :=
  let target_folder := source_folder ++ "/" ++ category
  let r := get_unique_filename md5 ts dry_run st.files st.cache st.stats file_path target_folder
  match r.result with
  | none => { st with files := r.files, cache := r.cache, stats := r.stats }
  | some unique_path =>
    if dry_run then
      { st with files := r.files, cache := r.cache, stats := r.stats }
    else
      match fsLookup r.files file_path with
      | some d =>
        let stats1 := { r.stats with moved := r.stats.moved + 1 }
        let stats2 := if file_path.name == unique_path.name then stats1
          else { stats1 with renamed := stats1.renamed + 1 }
        { st with files := fsInsert (fsRemove r.files file_path) unique_path d,
                  cache := r.cache, stats := stats2 }
      | none =>
        { st with files := r.files, cache := r.cache,
                  stats := { r.stats with errors := r.stats.errors + 1 } }

/-- The `for category, extensions in self.categories.items()` loop of
`process_file` (lines 204-251): the first category whose extension list
contains the lower-cased suffix handles the file and the loop breaks; if
none matches, `skipped` is incremented. -/
def process_file_loop (md5 : String → String) (ts : String) (dry_run : Bool)
    (source_folder : String) (st : RunSt) (file_path : FPath) (file_ext : String) :
    List (String × List String) → RunSt
  | [] => { st with stats := { st.stats with skipped := st.stats.skipped + 1 } }
  | (category, extensions) :: rest =>
    if extensions.contains file_ext then
      handle_category md5 ts dry_run source_folder st file_path category
    else
      process_file_loop md5 ts dry_run source_folder st file_path file_ext rest

/-- `process_file` (lines 199-251). -/
def process_file (md5 : String → String) (ts : String) (dry_run : Bool)
    (source_folder : String) (st : RunSt) (file_path : FPath) : RunSt :=
  process_file_loop md5 ts dry_run source_folder st file_path
    (lowerStr (psuffix file_path.name)) categories

/-- `create_category_folders` (lines 163-174): make each missing category
folder unless `dry_run`. -/
def create_category_folders (dry_run : Bool) (source_folder : String) (st : RunSt) :
    RunSt :=
  { st with dirs := categories.foldl (fun ds cat =>
      if (source_folder ++ "/" ++ cat.1) ∈ ds then ds
      else if dry_run then ds
      else ds ++ [source_folder ++ "/" ++ cat.1]) st.dirs }

/-- The snapshot of lines 186-189: the regular files directly inside the
source folder whose name is not hidden and whose suffix is not `.log`. -/
def snapshotFiles (files : FS) (source_folder : String) : List FPath :=
  (files.filter (fun e => e.1.dir == source_folder
      && !(hiddenName e.1.name)
      && !(psuffix e.1.name == ".log"))).map (fun e => e.1)

/-- Return value of `organize_files`: the boolean result and the final state. -/
structure OrgRes where
  ok : Bool
  st : RunSt
deriving DecidableEq

/-- `organize_files` (lines 176-197): fail fast when the source folder does
not exist; otherwise create category folders, snapshot the files to
process, set `processed` to their number, and process each one. -/
def organize_files (md5 : String → String) (ts : String) (dry_run : Bool)
    (source_folder : String) (st : RunSt) : OrgRes :=
  if source_folder ∈ st.dirs then
    let st1 := create_category_folders dry_run source_folder st
    let snap := snapshotFiles st1.files source_folder
    let st2 := { st1 with stats := { st1.stats with processed := snap.length } }
    ⟨true, snap.foldl (process_file md5 ts dry_run source_folder) st2⟩
  else ⟨false, st⟩

/-- `save_report` (lines 353-369): write `organization_report.json` into
the source folder unless `dry_run`.  The serialized report is abstracted
as `reportData`. -/
def save_report (dry_run : Bool) (source_folder : String) (reportData : FileData)
    (st : RunSt) : RunSt :=
  if dry_run then st
  else { st with files := fsInsert st.files ⟨source_folder, "organization_report.json"⟩ reportData }

/-- Append `p` to the group keyed by hash `h`, creating the group at the
end when absent — the dict-building loop of lines 271-277. -/
def groupInsert (gs : List (String × List FPath)) (h : String) (p : FPath) :
    List (String × List FPath) :=
  match gs with
  | [] => [(h, [p])]
  | g :: rest => if g.1 == h then (g.1, g.2 ++ [p]) :: rest else g :: groupInsert rest h p

/-- `find_all_duplicates` (lines 253-282): enumerate the candidate files
(the whole tree when `recursive`, one level otherwise), drop hidden names,
group by content hash skipping failed hashes, and keep only the groups
with more than one member. -/
def find_all_duplicates (md5 : String → String) (source_folder : String) (st : RunSt)
    (recursive : Bool) : List (String × List FPath) :=
  let all_files := (st.files.map (fun e => e.1)).filter (fun p =>
    (if recursive then p.dir == source_folder || p.dir.startsWith (source_folder ++ "/")
     else p.dir == source_folder) && !(hiddenName p.name))
  let groups := all_files.foldl (fun gs p =>
    let h := get_file_hash md5 st.files p
    if h == "" then gs else groupInsert gs h p) []
  groups.filter (fun g => 1 < g.2.length)

/-- `f.stat().st_mtime` for a file known to the filesystem. -/
def mtimeOf (files : FS) (p : FPath) : Nat :=
  ((fsLookup files p).map (fun d => d.mtime)).getD 0

/-- Comparison used by `files_with_mtime.sort(key=lambda x: x[1])`. -/
def mtLE (a b : FPath × Nat) : Prop := a.2 ≤ b.2

instance : DecidableRel mtLE := fun a b => Nat.decLe a.2 b.2

instance : IsTotal (FPath × Nat) mtLE := ⟨fun a b => Nat.le_total a.2 b.2⟩

instance : IsTrans (FPath × Nat) mtLE := ⟨fun _ _ _ => Nat.le_trans⟩

/-- Lines 302-307 of `remove_duplicates`: annotate each group member with
its mtime, sort ascending by mtime (Python's sort is stable, as is
insertion sort), and reverse when the newest copy is to be kept. -/
def groupOrder (keep_oldest : Bool) (files : FS) (group : List FPath) :
    List (FPath × Nat) :=
  let sorted := List.insertionSort mtLE (group.map (fun p => (p, mtimeOf files p)))
  if keep_oldest then sorted else sorted.reverse

/-- Lines 312-322: delete every file of `rest` (unless `dry_run`), counting
only the deletions that succeed. -/
def deleteRest (dry_run : Bool) (files : FS) (rest : List (FPath × Nat)) : FS × Nat :=
  rest.foldl (fun acc pr =>
    if dry_run then acc
    else if (fsLookup acc.1 pr.1).isSome then (fsRemove acc.1 pr.1, acc.2 + 1)
    else acc) (files, 0)

/-- One iteration of the `for file_hash, files in duplicates.items()` loop
of `remove_duplicates` (lines 300-322): keep the head of the ordered group
and delete the rest. -/
def processGroup (dry_run keep_oldest : Bool) (files : FS) (group : List FPath) :
    FS × Nat :=
  match groupOrder keep_oldest files group with
  | [] => (files, 0)
  | _ :: rest => deleteRest dry_run files rest

/-- `remove_duplicates` (lines 284-325). -/
def remove_duplicates (md5 : String → String) (dry_run keep_oldest : Bool)
    (source_folder : String) (st : RunSt) : RunSt :=
  let groups := find_all_duplicates md5 source_folder st true
  let res := groups.foldl (fun (acc : FS × Nat) g =>
    let r := processGroup dry_run keep_oldest acc.1 g.2
    (r.1, acc.2 + r.2)) (st.files, 0)
  let stats' := { st.stats with duplicates_removed := st.stats.duplicates_removed + res.2 }
  { st with files := res.1, stats := stats' }

/-- The category `process_file` assigns to an extension: the first entry of
the table whose extension list contains it. -/
def chosen_category (ext : String) : Option String :=
  (categories.find? (fun kv => kv.2.contains ext)).map (fun kv => kv.1)

/-! ### Concrete fixtures used by witnesses and counterexamples -/

/-- A concrete injective stand-in for the MD5 digest, never empty. -/
def md5c (s : String) : String := "h" ++ s

/-- Initial state for the dry-run counterexample: two identically sized
source files with equal content and a pre-existing different occupant of
`Images/a.jpg`. -/
def stC1 : RunSt :=
  ⟨[(⟨"S", "a.jpg"⟩, ⟨2, some "QQ", 1⟩),
    (⟨"S", "a_1.jpg"⟩, ⟨2, some "QQ", 2⟩),
    (⟨"S/Images", "a.jpg"⟩, ⟨2, some "RR", 0⟩)],
   ["S", "S/Images"], [], Stats.zero⟩

/-- Initial state for the stale-cache counterexample: the source file is a
byte-identical duplicate of the pre-existing `Images/a.jpg`. -/
def stC3 : RunSt :=
  ⟨[(⟨"S", "a.jpg"⟩, ⟨1, some "Z", 1⟩),
    (⟨"S/Images", "a.jpg"⟩, ⟨1, some "Z", 0⟩)],
   ["S", "S/Images"], [], Stats.zero⟩

/-- Adversarial occupancy for the fallback counterexample: the natural
name, the first 99 numeric-suffix candidates and the timestamp-suffix name
are all occupied in the target folder by files of a different size. -/
def fsC4 : FS :=
  (⟨"S", "a.b"⟩, ⟨1, some "s", 0⟩) ::
  (⟨"T", "a.b"⟩, ⟨2, some "xy", 0⟩) ::
  (⟨"T", "a_20250101.b"⟩, ⟨2, some "xy", 0⟩) ::
  (List.range 99).map (fun i =>
    (⟨"T", "a_" ++ toString (i + 1) ++ ".b"⟩, (⟨2, some "xy", 0⟩ : FileData)))

/-- Two unreadable files of equal size. -/
def fsC5 : FS :=
  [(⟨"S", "u1.bin"⟩, ⟨7, none, 0⟩), (⟨"S", "u2.bin"⟩, ⟨7, none, 0⟩)]

/-- Two files of different sizes. -/
def fsC6 : FS :=
  [(⟨"S", "s1.bin"⟩, ⟨1, some "a", 0⟩), (⟨"S", "s2.bin"⟩, ⟨2, some "bb", 0⟩)]

/-- A filesystem with one duplicate group of two members. -/
def fsC7 : FS :=
  [(⟨"S", "x"⟩, ⟨1, some "c", 5⟩), (⟨"S", "y"⟩, ⟨1, some "c", 3⟩)]

def grpC7 : List FPath := [⟨"S", "x"⟩, ⟨"S", "y"⟩]

/-- A state with one ordinary source file, for snapshot/report witnesses. -/
def stC8 : RunSt :=
  ⟨[(⟨"S", "n.txt"⟩, ⟨1, some "n", 0⟩)], ["S"], [], Stats.zero⟩

/-- A state whose source folder does not exist. -/
def stC9 : RunSt := ⟨[], [], [], Stats.zero⟩

/-- A state with a pre-populated hash cache and no files. -/
def stC3w : RunSt := ⟨[], ["S"], [(⟨"S", "old.bin"⟩, "x")], Stats.zero⟩

/-! ### Association-list lemmas -/

theorem fsLookup_nil (p : FPath) : fsLookup [] p = none := rfl

theorem fsLookup_cons (e : FPath × FileData) (fs : FS) (p : FPath) :
    fsLookup (e :: fs) p = if e.1 = p then some e.2 else fsLookup fs p := by
  by_cases h : e.1 = p
  · simp [fsLookup, List.find?, h]
  · simp [fsLookup, List.find?, h, beq_eq_false_iff_ne.mpr h]

theorem fsRemove_cons (e : FPath × FileData) (fs : FS) (q : FPath) :
    fsRemove (e :: fs) q = if e.1 = q then fsRemove fs q else e :: fsRemove fs q := by
  by_cases h : e.1 = q
  · simp [fsRemove, List.filter, h]
  · simp [fsRemove, List.filter, h, beq_eq_false_iff_ne.mpr h]

theorem fsLookup_fsRemove_ne (fs : FS) (q p : FPath) (h : q ≠ p) :
    fsLookup (fsRemove fs q) p = fsLookup fs p := by
  induction fs with
  | nil => rfl
  | cons e fs ih =>
    rw [fsRemove_cons]
    by_cases he : e.1 = q
    · rw [if_pos he, ih, fsLookup_cons, if_neg (by rw [he]; exact h)]
    · rw [if_neg he, fsLookup_cons, fsLookup_cons, ih]

theorem cacheLookup_nil (p : FPath) : cacheLookup [] p = none := rfl

theorem cacheLookup_cons (e : FPath × String) (c : Cache) (p : FPath) :
    cacheLookup (e :: c) p = if e.1 = p then some e.2 else cacheLookup c p := by
  by_cases h : e.1 = p
  · simp [cacheLookup, List.find?, h]
  · simp [cacheLookup, List.find?, h, beq_eq_false_iff_ne.mpr h]

theorem cacheLookup_append_of_none (c : Cache) (a : FPath) (h : String) (b : FPath)
    (hb : cacheLookup c b = none) :
    cacheLookup (c ++ [(a, h)]) b = if a = b then some h else none := by
  induction c with
  | nil =>
    by_cases hab : a = b
    · simp [cacheLookup, List.find?, hab]
    · simp [cacheLookup, List.find?, hab, beq_eq_false_iff_ne.mpr hab]
  | cons e c ih =>
    rw [cacheLookup_cons] at hb
    by_cases he : e.1 = b
    · rw [if_pos he] at hb; cases hb
    · rw [if_neg he] at hb
      rw [List.cons_append, cacheLookup_cons, if_neg he, ih hb]

theorem cacheLookup_append_of_some (c : Cache) (a : FPath) (h : String) (b : FPath)
    (v : String) (hb : cacheLookup c b = some v) :
    cacheLookup (c ++ [(a, h)]) b = some v := by
  induction c with
  | nil => rw [cacheLookup_nil] at hb; cases hb
  | cons e c ih =>
    rw [cacheLookup_cons] at hb
    by_cases he : e.1 = b
    · rw [if_pos he] at hb
      rw [List.cons_append, cacheLookup_cons, if_pos he, hb]
    · rw [if_neg he] at hb
      rw [List.cons_append, cacheLookup_cons, if_neg he, ih hb]

/-- The first-match characterization of `List.find?`. -/
theorem find?_first {α : Type} (p : α → Bool) :
    ∀ (l : List α) (x : α), l.find? p = some x →
      ∃ pre post, l = pre ++ x :: post ∧ p x = true ∧ ∀ y ∈ pre, p y = false := by
  intro l
  induction l with
  | nil => intro x h; cases h
  | cons a rest ih =>
    intro x h
    by_cases ha : p a
    · rw [List.find?_cons_of_pos _ ha] at h
      cases h
      exact ⟨[], rest, rfl, ha, by intro y hy; cases hy⟩
    · rw [List.find?_cons_of_neg _ (by simpa using ha)] at h
      obtain ⟨pre, post, hl, hx, hpre⟩ := ih x h
      refine ⟨a :: pre, post, by rw [hl]; rfl, hx, ?_⟩
      intro y hy
      rcases List.mem_cons.mp hy with h1 | h2
      · subst h1; simpa using ha
      · exact hpre y h2

/-! ### C9: fail-fast when the source folder is missing -/

/-- C9: if the source folder does not exist, `organize_files` returns a
failure result with the whole state — filesystem, directories, cache and
statistics — unchanged, so no mutation and no statistics update happens. -/
theorem organize_fail_fast (md5 : String → String) (ts : String) (dry_run : Bool)
    (source_folder : String) (st : RunSt) (h : source_folder ∉ st.dirs) :
    organize_files md5 ts dry_run source_folder st = ⟨false, st⟩ := by
  simp [organize_files, h]

theorem organize_fail_fast_witness :
    "S" ∉ stC9.dirs ∧ organize_files md5c "T0" false "S" stC9 = ⟨false, stC9⟩ :=
  ⟨by decide, organize_fail_fast md5c "T0" false "S" stC9 (by decide)⟩

/-! ### C5: failed hashes never count as duplicates -/

/-- C5: when hashing either file fails (`get_file_hash` returns the empty
string) and the per-run cache holds no entry yet for either file,
`is_exact_duplicate` never declares the pair duplicates; in particular two
unreadable files are never classified as duplicates of each other. -/
theorem is_exact_duplicate_fail_open (md5 : String → String) (files : FS) (cache : Cache)
    (f1 f2 : FPath) (hc1 : cacheLookup cache f1 = none) (hc2 : cacheLookup cache f2 = none)
    (hfail : get_file_hash md5 files f1 = "" ∨ get_file_hash md5 files f2 = "") :
    (is_exact_duplicate md5 files cache f1 f2).1 = false := by
  unfold is_exact_duplicate
  cases h1 : fsLookup files f1 with
  | none => rfl
  | some d1 =>
    cases h2 : fsLookup files f2 with
    | none => rfl
    | some d2 =>
      by_cases hs : d1.size ≠ d2.size
      · simp [hs]
      · simp only [hs, if_false]
        have e1 : hashWithCache md5 files cache f1 =
            (get_file_hash md5 files f1, cache ++ [(f1, get_file_hash md5 files f1)]) := by
          unfold hashWithCache; rw [hc1]
        rw [e1]
        by_cases heq : f1 = f2
        · have e2 : cacheLookup (cache ++ [(f1, get_file_hash md5 files f1)]) f2 =
              some (get_file_hash md5 files f1) := by
            rw [cacheLookup_append_of_none _ _ _ _ (heq ▸ hc1), if_pos heq]
          have e3 : hashWithCache md5 files (cache ++ [(f1, get_file_hash md5 files f1)]) f2 =
              (get_file_hash md5 files f1, cache ++ [(f1, get_file_hash md5 files f1)]) := by
            unfold hashWithCache; rw [e2]
          rw [e3]
          have hh : get_file_hash md5 files f1 = "" := by
            rcases hfail with h | h
            · exact h
            · rw [heq]; exact h
          simp [hh]
        · have e2 : cacheLookup (cache ++ [(f1, get_file_hash md5 files f1)]) f2 = none := by
            rw [cacheLookup_append_of_none _ _ _ _ hc2, if_neg heq]
          have e3 : hashWithCache md5 files (cache ++ [(f1, get_file_hash md5 files f1)]) f2 =
              (get_file_hash md5 files f2,
                (cache ++ [(f1, get_file_hash md5 files f1)]) ++
                  [(f2, get_file_hash md5 files f2)]) := by
            unfold hashWithCache; rw [e2]
          rw [e3]
          rcases hfail with h | h <;> simp [h]

theorem is_exact_duplicate_fail_open_witness :
    get_file_hash md5c fsC5 ⟨"S", "u1.bin"⟩ = "" ∧
    (is_exact_duplicate md5c fsC5 [] ⟨"S", "u1.bin"⟩ ⟨"S", "u2.bin"⟩).1 = false :=
  ⟨by decide, is_exact_duplicate_fail_open md5c fsC5 [] ⟨"S", "u1.bin"⟩ ⟨"S", "u2.bin"⟩
    rfl rfl (Or.inl (by decide))⟩

/-- Unfolding of `is_exact_duplicate` when both `stat` calls succeed. -/
theorem is_exact_duplicate_some_some (md5 : String → String) (files : FS) (cache : Cache)
    (f1 f2 : FPath) (d1 d2 : FileData)
    (h1 : fsLookup files f1 = some d1) (h2 : fsLookup files f2 = some d2) :
    is_exact_duplicate md5 files cache f1 f2 =
      if d1.size ≠ d2.size then (false, cache)
      else
        ((!((hashWithCache md5 files cache f1).1 == "")) &&
          (!((hashWithCache md5 files (hashWithCache md5 files cache f1).2 f2).1 == "")) &&
          ((hashWithCache md5 files cache f1).1 ==
            (hashWithCache md5 files (hashWithCache md5 files cache f1).2 f2).1),
          (hashWithCache md5 files (hashWithCache md5 files cache f1).2 f2).2) := by
  unfold is_exact_duplicate
  rw [h1, h2]

/-! ### C6: size short-circuit, then hash comparison -/

/-- C6: `is_exact_duplicate` compares sizes first and returns `false`
without computing or caching any hash when the sizes differ; and whenever
it returns `true` the two files exist with equal sizes and the two content
digests it compared are equal and non-empty — `true` is never derived from
the size check alone. -/
theorem is_exact_duplicate_size_then_hash (md5 : String → String) (files : FS)
    (cache : Cache) (f1 f2 : FPath) :
    (∀ d1 d2, fsLookup files f1 = some d1 → fsLookup files f2 = some d2 →
      d1.size ≠ d2.size → is_exact_duplicate md5 files cache f1 f2 = (false, cache)) ∧
    ((is_exact_duplicate md5 files cache f1 f2).1 = true →
      ∃ d1 d2, fsLookup files f1 = some d1 ∧ fsLookup files f2 = some d2 ∧
        d1.size = d2.size ∧
        (hashWithCache md5 files cache f1).1 ≠ "" ∧
        (hashWithCache md5 files (hashWithCache md5 files cache f1).2 f2).1 ≠ "" ∧
        (hashWithCache md5 files cache f1).1 =
          (hashWithCache md5 files (hashWithCache md5 files cache f1).2 f2).1) := by
  constructor
  · intro d1 d2 h1 h2 hs
    unfold is_exact_duplicate
    rw [h1, h2]
    simp [hs]
  · intro htrue
    cases h1 : fsLookup files f1 with
    | none =>
      unfold is_exact_duplicate at htrue
      rw [h1] at htrue
      simp at htrue
    | some d1 =>
      cases h2 : fsLookup files f2 with
      | none =>
        unfold is_exact_duplicate at htrue
        rw [h1, h2] at htrue
        simp at htrue
      | some d2 =>
        rw [is_exact_duplicate_some_some md5 files cache f1 f2 d1 d2 h1 h2] at htrue
        by_cases hs : d1.size ≠ d2.size
        · rw [if_pos hs] at htrue
          simp at htrue
        · rw [if_neg hs] at htrue
          simp only [Bool.and_eq_true, Bool.not_eq_true', beq_iff_eq,
            beq_eq_false_iff_ne] at htrue
          refine ⟨d1, d2, rfl, rfl, not_not.mp hs, ?_, ?_, ?_⟩ <;> tauto

theorem is_exact_duplicate_size_then_hash_witness :
    fsLookup fsC6 ⟨"S", "s1.bin"⟩ = some ⟨1, some "a", 0⟩ ∧
    (1 : Nat) ≠ 2 ∧
    is_exact_duplicate md5c fsC6 [] ⟨"S", "s1.bin"⟩ ⟨"S", "s2.bin"⟩ = (false, []) :=
  ⟨by decide, by decide,
    (is_exact_duplicate_size_then_hash md5c fsC6 [] ⟨"S", "s1.bin"⟩ ⟨"S", "s2.bin"⟩).1
      ⟨1, some "a", 0⟩ ⟨2, some "bb", 0⟩ (by decide) (by decide) (by decide)⟩

/-- The category loop of `process_file` is a first-match lookup: it acts
through the first table entry whose extension list contains the suffix and
increments `skipped` when no entry matches. -/
theorem process_file_loop_eq_find (md5 : String → String) (ts : String) (dry_run : Bool)
    (source_folder : String) (st : RunSt) (file_path : FPath) (ext : String)
    (l : List (String × List String)) :
    process_file_loop md5 ts dry_run source_folder st file_path ext l =
      match l.find? (fun kv => kv.2.contains ext) with
      | none => { st with stats := { st.stats with skipped := st.stats.skipped + 1 } }
      | some kv => handle_category md5 ts dry_run source_folder st file_path kv.1 := by
  induction l with
  | nil => rfl
  | cons kv rest ih =>
    obtain ⟨category, extensions⟩ := kv
    cases h : extensions.contains ext with
    | true =>
      rw [@List.find?_cons_of_pos _ (fun kv => kv.2.contains ext) (category, extensions)
        rest h]
      simp only [process_file_loop, h, if_true]
    | false =>
      rw [@List.find?_cons_of_neg _ (fun kv => kv.2.contains ext) (category, extensions)
        rest (by simp only [h]; exact Bool.false_ne_true), ← ih]
      simp only [process_file_loop, h, Bool.false_eq_true, if_false]

/-! ### C10: first-match category assignment -/

/-- C10: `process_file` dispatches on the first entry of the category
table (in insertion order) whose extension list contains the lower-cased
suffix, incrementing `skipped` when none matches; `chosen_category`
returns precisely that first match, so `.pptx` — although also listed
under Presentations — always goes to Documents, and `.key` — although
also listed under Certificates — always goes to Presentations. -/
theorem category_first_match :
    (∀ (md5 : String → String) (ts : String) (dry_run : Bool) (source_folder : String)
        (st : RunSt) (file_path : FPath),
      process_file md5 ts dry_run source_folder st file_path =
        match categories.find?
            (fun kv => kv.2.contains (lowerStr (psuffix file_path.name))) with
        | none => { st with stats := { st.stats with skipped := st.stats.skipped + 1 } }
        | some kv => handle_category md5 ts dry_run source_folder st file_path kv.1) ∧
    (∀ (ext c : String), chosen_category ext = some c →
      ∃ pre exts post, categories = pre ++ (c, exts) :: post ∧
        exts.contains ext = true ∧ ∀ kv ∈ pre, kv.2.contains ext = false) ∧
    chosen_category ".pptx" = some "Documents" ∧
    (categories.any fun kv => kv.1 == "Presentations" && kv.2.contains ".pptx") = true ∧
    chosen_category ".key" = some "Presentations" ∧
    (categories.any fun kv => kv.1 == "Certificates" && kv.2.contains ".key") = true := by
  refine ⟨?_, ?_, by decide, by decide, by decide, by decide⟩
  · intro md5 ts dry_run source_folder st file_path
    exact process_file_loop_eq_find md5 ts dry_run source_folder st file_path
      (lowerStr (psuffix file_path.name)) categories
  · intro ext c h
    unfold chosen_category at h
    cases hf : categories.find? (fun kv => kv.2.contains ext) with
    | none => rw [hf] at h; cases h
    | some kv =>
      rw [hf] at h
      obtain ⟨pre, post, hl, hx, hpre⟩ := find?_first _ _ _ hf
      cases h
      exact ⟨pre, kv.2, post, hl, hx, hpre⟩

theorem category_first_match_witness :
    ∃ pre exts post, categories = pre ++ ("Documents", exts) :: post ∧
      exts.contains ".pptx" = true ∧ ∀ kv ∈ pre, kv.2.contains ".pptx" = false :=
  category_first_match.2.1 ".pptx" "Documents" (by decide)

/-! ### C2: bounded termination of the unique-name loop -/

theorem guf_loop_iters_le (md5 : String → String) (ts : String) (dry_run : Bool)
    (file_path : FPath) (target_folder base_name extension : String) :
    ∀ (fuel : Nat) (files : FS) (cache : Cache) (stats : Stats) (counter : Nat)
      (new_path : FPath), counter ≤ 100 →
      (guf_loop md5 ts dry_run file_path target_folder base_name extension
        fuel files cache stats counter new_path).iters ≤ 101 - counter := by
  intro fuel
  induction fuel with
  | zero =>
    intro files cache stats counter np h
    simp only [guf_loop]
    omega
  | succ fuel ih =>
    intro files cache stats counter np h
    simp only [guf_loop]
    split_ifs with h1 h2 h3 h4 h5
    · simp only []; omega
    · simp only []; omega
    · simp only []; omega
    · simp only []; omega
    · have := ih files (is_exact_duplicate md5 files cache file_path np).2 stats
        (counter + 1)
        ⟨target_folder, base_name ++ "_" ++ toString counter ++ extension⟩ (by omega)
      simp only []
      omega
    · simp only []; omega

/-- C2: for every source file, target folder and pre-existing occupancy —
including adversarial occupancy of every numeric-suffix candidate — the
`while` loop of `get_unique_filename` executes at most 101 iterations:
at most 100 numeric-suffix attempts followed by the forced
timestamp-suffix name. -/
theorem get_unique_filename_terminates (md5 : String → String) (ts : String)
    (dry_run : Bool) (files : FS) (cache : Cache) (stats : Stats) (file_path : FPath)
    (target_folder : String) :
    (get_unique_filename md5 ts dry_run files cache stats file_path target_folder).iters
      ≤ 101 := by
  have := guf_loop_iters_le md5 ts dry_run file_path target_folder
    (splitExt file_path.name).1 (splitExt file_path.name).2 101 files cache stats 1
    ⟨target_folder, file_path.name⟩ (by omega)
  unfold get_unique_filename
  omega

/-! ### C4: the returned destination path -/

theorem guf_loop_free_or_fallback (md5 : String → String) (ts : String) (dry_run : Bool)
    (file_path : FPath) (target_folder base_name extension : String) :
    ∀ (fuel : Nat) (files : FS) (cache : Cache) (stats : Stats) (counter : Nat)
      (new_path : FPath) (p : FPath),
      (guf_loop md5 ts dry_run file_path target_folder base_name extension
        fuel files cache stats counter new_path).result = some p →
      (guf_loop md5 ts dry_run file_path target_folder base_name extension
        fuel files cache stats counter new_path).files = files ∧
      (fsLookup files p = none ∨
        p = ⟨target_folder, base_name ++ "_" ++ ts ++ extension⟩) := by
  intro fuel
  induction fuel with
  | zero =>
    intro files cache stats counter np p hr
    simp only [guf_loop] at hr ⊢
    cases hr
    exact ⟨by trivial, Or.inr (by trivial)⟩
  | succ fuel ih =>
    intro files cache stats counter np p hr
    simp only [guf_loop] at hr ⊢
    by_cases h1 : (fsLookup files np).isSome
    · rw [if_pos h1] at hr ⊢
      by_cases h2 : (is_exact_duplicate md5 files cache file_path np).1
      · rw [if_pos h2] at hr
        by_cases h3 : dry_run
        · rw [if_pos h3] at hr
          simp at hr
        · rw [if_neg h3] at hr
          by_cases h4 : (fsLookup files file_path).isSome
          · rw [if_pos h4] at hr
            simp at hr
          · rw [if_neg h4] at hr
            simp at hr
      · rw [if_neg h2] at hr ⊢
        by_cases h5 : 100 < counter + 1
        · rw [if_pos h5] at hr ⊢
          replace hr : some (⟨target_folder, base_name ++ "_" ++ ts ++ extension⟩ : FPath)
            = some p := hr
          cases hr
          exact ⟨rfl, Or.inr rfl⟩
        · rw [if_neg h5] at hr ⊢
          exact ih files (is_exact_duplicate md5 files cache file_path np).2 stats
            (counter + 1)
            ⟨target_folder, base_name ++ "_" ++ toString counter ++ extension⟩ p hr
    · rw [if_neg h1] at hr ⊢
      replace hr : some np = some p := hr
      cases hr
      refine ⟨rfl, Or.inl ?_⟩
      cases hl : fsLookup files np with
      | none => rfl
      | some d => rw [hl] at h1; simp at h1

/-- C4 amended: whenever `get_unique_filename` returns a destination path,
either that path is not occupied in the (unchanged) filesystem, or it is
the timestamp-suffix fallback name, which the code returns after 100
failed numeric attempts without re-checking occupancy and which can
therefore still be occupied. -/
theorem unique_filename_free_or_fallback (md5 : String → String) (ts : String)
    (dry_run : Bool) (files : FS) (cache : Cache) (stats : Stats) (file_path : FPath)
    (target_folder : String) (p : FPath)
    (h : (get_unique_filename md5 ts dry_run files cache stats file_path
      target_folder).result = some p) :
    fsLookup (get_unique_filename md5 ts dry_run files cache stats file_path
        target_folder).files p = none ∨
      p = ⟨target_folder,
        (splitExt file_path.name).1 ++ "_" ++ ts ++ (splitExt file_path.name).2⟩ := by
  unfold get_unique_filename at h ⊢
  obtain ⟨hf, hd⟩ := guf_loop_free_or_fallback md5 ts dry_run file_path target_folder
    (splitExt file_path.name).1 (splitExt file_path.name).2 101 files cache stats 1
    ⟨target_folder, file_path.name⟩ p h
  rw [hf]
  exact hd

theorem unique_filename_free_or_fallback_witness :
    (get_unique_filename md5c "T0" false [] [] Stats.zero ⟨"S", "a.b"⟩ "T").result =
      some ⟨"T", "a.b"⟩ ∧
    (fsLookup (get_unique_filename md5c "T0" false [] [] Stats.zero ⟨"S", "a.b"⟩ "T").files
        ⟨"T", "a.b"⟩ = none ∨
      (⟨"T", "a.b"⟩ : FPath) =
        ⟨"T", (splitExt (FPath.name ⟨"S", "a.b"⟩)).1 ++ "_" ++ "T0" ++
          (splitExt (FPath.name ⟨"S", "a.b"⟩)).2⟩) :=
  ⟨by decide, unique_filename_free_or_fallback md5c "T0" false [] [] Stats.zero
    ⟨"S", "a.b"⟩ "T" ⟨"T", "a.b"⟩ (by decide)⟩

/-- C4 counterexample: with the natural name, the first 99 numeric-suffix
candidates and the timestamp-suffix name all occupied by files of a
different size, `get_unique_filename` returns the timestamp-suffix path
even though a file already occupies it — the claim that the returned path
is never occupied fails for the fallback. -/
theorem unique_filename_fallback_occupied_cex :
    (get_unique_filename md5c "20250101" true fsC4 [] Stats.zero ⟨"S", "a.b"⟩ "T").result =
      some ⟨"T", "a_20250101.b"⟩ ∧
    (fsLookup (get_unique_filename md5c "20250101" true fsC4 [] Stats.zero
      ⟨"S", "a.b"⟩ "T").files ⟨"T", "a_20250101.b"⟩).isSome = true := by
  decide

/-! ### Invariants of the unique-name loop and per-file processing -/

/-- `get_unique_filename` never touches the `processed`, `moved`,
`renamed` or `skipped` counters. -/
theorem guf_loop_stats_inv (md5 : String → String) (ts : String) (dry_run : Bool)
    (file_path : FPath) (target_folder base_name extension : String) :
    ∀ (fuel : Nat) (files : FS) (cache : Cache) (stats : Stats) (counter : Nat)
      (new_path : FPath),
      (guf_loop md5 ts dry_run file_path target_folder base_name extension
        fuel files cache stats counter new_path).stats.processed = stats.processed ∧
      (guf_loop md5 ts dry_run file_path target_folder base_name extension
        fuel files cache stats counter new_path).stats.moved = stats.moved ∧
      (guf_loop md5 ts dry_run file_path target_folder base_name extension
        fuel files cache stats counter new_path).stats.renamed = stats.renamed ∧
      (guf_loop md5 ts dry_run file_path target_folder base_name extension
        fuel files cache stats counter new_path).stats.skipped = stats.skipped := by
  intro fuel
  induction fuel with
  | zero => intro files cache stats counter np; exact ⟨rfl, rfl, rfl, rfl⟩
  | succ fuel ih =>
    intro files cache stats counter np
    simp only [guf_loop]
    by_cases h1 : (fsLookup files np).isSome
    · rw [if_pos h1]
      by_cases h2 : (is_exact_duplicate md5 files cache file_path np).1
      · rw [if_pos h2]
        by_cases h3 : dry_run
        · rw [if_pos h3]; exact ⟨rfl, rfl, rfl, rfl⟩
        · rw [if_neg h3]
          by_cases h4 : (fsLookup files file_path).isSome
          · rw [if_pos h4]; exact ⟨rfl, rfl, rfl, rfl⟩
          · rw [if_neg h4]; exact ⟨rfl, rfl, rfl, rfl⟩
      · rw [if_neg h2]
        by_cases h5 : 100 < counter + 1
        · rw [if_pos h5]; exact ⟨rfl, rfl, rfl, rfl⟩
        · rw [if_neg h5]
          exact ih files (is_exact_duplicate md5 files cache file_path np).2 stats
            (counter + 1)
            ⟨target_folder, base_name ++ "_" ++ toString counter ++ extension⟩
    · rw [if_neg h1]; exact ⟨rfl, rfl, rfl, rfl⟩

theorem get_unique_filename_stats_inv (md5 : String → String) (ts : String)
    (dry_run : Bool) (files : FS) (cache : Cache) (stats : Stats) (file_path : FPath)
    (target_folder : String) :
    (get_unique_filename md5 ts dry_run files cache stats file_path
      target_folder).stats.processed = stats.processed ∧
    (get_unique_filename md5 ts dry_run files cache stats file_path
      target_folder).stats.moved = stats.moved ∧
    (get_unique_filename md5 ts dry_run files cache stats file_path
      target_folder).stats.renamed = stats.renamed ∧
    (get_unique_filename md5 ts dry_run files cache stats file_path
      target_folder).stats.skipped = stats.skipped :=
  guf_loop_stats_inv md5 ts dry_run file_path target_folder
    (splitExt file_path.name).1 (splitExt file_path.name).2 101 files cache stats 1
    ⟨target_folder, file_path.name⟩

/-- In dry-run mode the unique-name loop never mutates the filesystem and
never updates `duplicates_removed` or `errors`. -/
theorem guf_loop_dry_inv (md5 : String → String) (ts : String)
    (file_path : FPath) (target_folder base_name extension : String) :
    ∀ (fuel : Nat) (files : FS) (cache : Cache) (stats : Stats) (counter : Nat)
      (new_path : FPath),
      (guf_loop md5 ts true file_path target_folder base_name extension
        fuel files cache stats counter new_path).files = files ∧
      (guf_loop md5 ts true file_path target_folder base_name extension
        fuel files cache stats counter new_path).stats.duplicates_removed =
          stats.duplicates_removed ∧
      (guf_loop md5 ts true file_path target_folder base_name extension
        fuel files cache stats counter new_path).stats.errors = stats.errors := by
  intro fuel
  induction fuel with
  | zero => intro files cache stats counter np; exact ⟨rfl, rfl, rfl⟩
  | succ fuel ih =>
    intro files cache stats counter np
    simp only [guf_loop, ite_true]
    by_cases h1 : (fsLookup files np).isSome
    · rw [if_pos h1]
      by_cases h2 : (is_exact_duplicate md5 files cache file_path np).1
      · rw [if_pos h2]
        exact ⟨rfl, rfl, rfl⟩
      · rw [if_neg h2]
        by_cases h5 : 100 < counter + 1
        · rw [if_pos h5]; exact ⟨rfl, rfl, rfl⟩
        · rw [if_neg h5]
          exact ih files (is_exact_duplicate md5 files cache file_path np).2 stats
            (counter + 1)
            ⟨target_folder, base_name ++ "_" ++ toString counter ++ extension⟩
    · rw [if_neg h1]; exact ⟨rfl, rfl, rfl⟩

theorem get_unique_filename_dry_inv (md5 : String → String) (ts : String)
    (files : FS) (cache : Cache) (stats : Stats) (file_path : FPath)
    (target_folder : String) :
    (get_unique_filename md5 ts true files cache stats file_path
      target_folder).files = files ∧
    (get_unique_filename md5 ts true files cache stats file_path
      target_folder).stats.duplicates_removed = stats.duplicates_removed ∧
    (get_unique_filename md5 ts true files cache stats file_path
      target_folder).stats.errors = stats.errors :=
  guf_loop_dry_inv md5 ts file_path target_folder
    (splitExt file_path.name).1 (splitExt file_path.name).2 101 files cache stats 1
    ⟨target_folder, file_path.name⟩

/-- `handle_category` never touches `dirs`, `processed` or `skipped`. -/
theorem handle_category_inv (md5 : String → String) (ts : String) (dry_run : Bool)
    (source_folder : String) (st : RunSt) (file_path : FPath) (category : String) :
    (handle_category md5 ts dry_run source_folder st file_path category).dirs = st.dirs ∧
    (handle_category md5 ts dry_run source_folder st file_path
      category).stats.processed = st.stats.processed ∧
    (handle_category md5 ts dry_run source_folder st file_path
      category).stats.skipped = st.stats.skipped := by
  obtain ⟨hp, hm, hr, hs⟩ := get_unique_filename_stats_inv md5 ts dry_run st.files
    st.cache st.stats file_path (source_folder ++ "/" ++ category)
  simp only [handle_category]
  cases hres : (get_unique_filename md5 ts dry_run st.files st.cache st.stats file_path
      (source_folder ++ "/" ++ category)).result with
  | none => exact ⟨rfl, hp, hs⟩
  | some up =>
    dsimp only
    by_cases hd : dry_run
    · rw [if_pos hd]
      exact ⟨rfl, hp, hs⟩
    · rw [if_neg hd]
      cases hlf : fsLookup (get_unique_filename md5 ts dry_run st.files st.cache st.stats
          file_path (source_folder ++ "/" ++ category)).files file_path with
      | some d =>
        dsimp only
        by_cases hn : file_path.name == up.name
        · rw [if_pos hn]; exact ⟨rfl, hp, hs⟩
        · rw [if_neg hn]; exact ⟨rfl, hp, hs⟩
      | none => exact ⟨rfl, hp, hs⟩

/-- In dry-run mode `handle_category` leaves the filesystem and all of
`moved`, `renamed`, `duplicates_removed`, `errors` untouched. -/
theorem handle_category_dry_inv (md5 : String → String) (ts : String)
    (source_folder : String) (st : RunSt) (file_path : FPath) (category : String) :
    (handle_category md5 ts true source_folder st file_path category).files = st.files ∧
    (handle_category md5 ts true source_folder st file_path category).dirs = st.dirs ∧
    (handle_category md5 ts true source_folder st file_path
      category).stats.moved = st.stats.moved ∧
    (handle_category md5 ts true source_folder st file_path
      category).stats.renamed = st.stats.renamed ∧
    (handle_category md5 ts true source_folder st file_path
      category).stats.duplicates_removed = st.stats.duplicates_removed ∧
    (handle_category md5 ts true source_folder st file_path
      category).stats.errors = st.stats.errors := by
  obtain ⟨hp, hm, hr, hs⟩ := get_unique_filename_stats_inv md5 ts true st.files
    st.cache st.stats file_path (source_folder ++ "/" ++ category)
  obtain ⟨hf, hdr, he⟩ := get_unique_filename_dry_inv md5 ts st.files
    st.cache st.stats file_path (source_folder ++ "/" ++ category)
  simp only [handle_category]
  cases hres : (get_unique_filename md5 ts true st.files st.cache st.stats file_path
      (source_folder ++ "/" ++ category)).result with
  | none => exact ⟨hf, rfl, hm, hr, hdr, he⟩
  | some up =>
    dsimp only
    exact ⟨hf, rfl, hm, hr, hdr, he⟩

/-- The files whose extension no category claims. -/
def uncategorized (p : FPath) : Bool :=
  (categories.find? (fun kv => kv.2.contains (lowerStr (psuffix p.name)))).isNone

/-- `process_file` never touches `dirs` or `processed`, and increments
`skipped` exactly when no category claims the file's extension. -/
theorem process_file_inv (md5 : String → String) (ts : String) (dry_run : Bool)
    (source_folder : String) (st : RunSt) (file_path : FPath) :
    (process_file md5 ts dry_run source_folder st file_path).dirs = st.dirs ∧
    (process_file md5 ts dry_run source_folder st file_path).stats.processed =
      st.stats.processed ∧
    (process_file md5 ts dry_run source_folder st file_path).stats.skipped =
      st.stats.skipped + (if uncategorized file_path then 1 else 0) := by
  unfold process_file
  rw [process_file_loop_eq_find]
  cases hf : categories.find?
      (fun kv => kv.2.contains (lowerStr (psuffix file_path.name))) with
  | none =>
    refine ⟨rfl, rfl, ?_⟩
    have hu : uncategorized file_path = true := by
      unfold uncategorized; rw [hf]; rfl
    rw [hu, if_pos rfl]
  | some kv =>
    obtain ⟨hd, hp, hs⟩ := handle_category_inv md5 ts dry_run source_folder st
      file_path kv.1
    refine ⟨hd, hp, ?_⟩
    have hu : uncategorized file_path = false := by
      unfold uncategorized; rw [hf]; rfl
    rw [hs, hu]
    simp

/-- In dry-run mode `process_file` leaves the filesystem and all of
`moved`, `renamed`, `duplicates_removed`, `errors` untouched. -/
theorem process_file_dry_inv (md5 : String → String) (ts : String)
    (source_folder : String) (st : RunSt) (file_path : FPath) :
    (process_file md5 ts true source_folder st file_path).files = st.files ∧
    (process_file md5 ts true source_folder st file_path).dirs = st.dirs ∧
    (process_file md5 ts true source_folder st file_path).stats.moved =
      st.stats.moved ∧
    (process_file md5 ts true source_folder st file_path).stats.renamed =
      st.stats.renamed ∧
    (process_file md5 ts true source_folder st file_path).stats.duplicates_removed =
      st.stats.duplicates_removed ∧
    (process_file md5 ts true source_folder st file_path).stats.errors =
      st.stats.errors := by
  unfold process_file
  rw [process_file_loop_eq_find]
  cases hf : categories.find?
      (fun kv => kv.2.contains (lowerStr (psuffix file_path.name))) with
  | none => exact ⟨rfl, rfl, rfl, rfl, rfl, rfl⟩
  | some kv => exact handle_category_dry_inv md5 ts source_folder st file_path kv.1

theorem foldl_process_inv (md5 : String → String) (ts : String) (dry_run : Bool)
    (source_folder : String) :
    ∀ (l : List FPath) (st : RunSt),
      (l.foldl (process_file md5 ts dry_run source_folder) st).dirs = st.dirs ∧
      (l.foldl (process_file md5 ts dry_run source_folder) st).stats.processed =
        st.stats.processed ∧
      (l.foldl (process_file md5 ts dry_run source_folder) st).stats.skipped =
        st.stats.skipped + l.countP (fun p => uncategorized p) := by
  intro l
  induction l with
  | nil => intro st; simp
  | cons p l ih =>
    intro st
    obtain ⟨hd1, hp1, hs1⟩ := process_file_inv md5 ts dry_run source_folder st p
    obtain ⟨hd2, hp2, hs2⟩ := ih (process_file md5 ts dry_run source_folder st p)
    simp only [List.foldl_cons]
    refine ⟨hd2.trans hd1, hp2.trans hp1, ?_⟩
    rw [hs2, hs1, List.countP_cons]
    cases hu : uncategorized p <;> simp [hu] <;> omega

theorem foldl_process_dry_inv (md5 : String → String) (ts : String)
    (source_folder : String) :
    ∀ (l : List FPath) (st : RunSt),
      (l.foldl (process_file md5 ts true source_folder) st).files = st.files ∧
      (l.foldl (process_file md5 ts true source_folder) st).dirs = st.dirs ∧
      (l.foldl (process_file md5 ts true source_folder) st).stats.moved =
        st.stats.moved ∧
      (l.foldl (process_file md5 ts true source_folder) st).stats.renamed =
        st.stats.renamed ∧
      (l.foldl (process_file md5 ts true source_folder) st).stats.duplicates_removed =
        st.stats.duplicates_removed ∧
      (l.foldl (process_file md5 ts true source_folder) st).stats.errors =
        st.stats.errors := by
  intro l
  induction l with
  | nil => intro st; exact ⟨rfl, rfl, rfl, rfl, rfl, rfl⟩
  | cons p l ih =>
    intro st
    obtain ⟨hf1, hd1, hm1, hr1, hdr1, he1⟩ := process_file_dry_inv md5 ts source_folder st p
    obtain ⟨hf2, hd2, hm2, hr2, hdr2, he2⟩ := ih (process_file md5 ts true source_folder st p)
    simp only [List.foldl_cons]
    exact ⟨hf2.trans hf1, hd2.trans hd1, hm2.trans hm1, hr2.trans hr1,
      hdr2.trans hdr1, he2.trans he1⟩

/-- `create_category_folders` only touches `dirs`. -/
theorem create_category_folders_files (dry_run : Bool) (source_folder : String)
    (st : RunSt) :
    (create_category_folders dry_run source_folder st).files = st.files := by
  unfold create_category_folders
  rfl

theorem create_category_folders_cache (dry_run : Bool) (source_folder : String)
    (st : RunSt) :
    (create_category_folders dry_run source_folder st).cache = st.cache := by
  unfold create_category_folders
  rfl

theorem create_category_folders_stats (dry_run : Bool) (source_folder : String)
    (st : RunSt) :
    (create_category_folders dry_run source_folder st).stats = st.stats := by
  unfold create_category_folders
  rfl

/-! ### C8: the pre-mutation snapshot -/

/-- C8 amended: before any file is handled, `organize_files` snapshots —
from the initial file set, unaffected by the preceding category-folder
creation — exactly the regular files directly inside the source folder
(single level, not recursive) whose name is not hidden and whose suffix is
not `.log`; `processed` is then set to the size of that snapshot, so files
moved during processing are not rescanned.  The snapshot does not exclude
the JSON report file (see the counterexample): the excluded suffix is
`.log`, the log file's. -/
theorem organize_snapshot_spec (dry_run : Bool) (source_folder : String) (st : RunSt)
    (p : FPath) :
    (p ∈ snapshotFiles (create_category_folders dry_run source_folder st).files
        source_folder ↔
      (∃ d, (p, d) ∈ st.files) ∧ p.dir = source_folder ∧
        hiddenName p.name = false ∧ psuffix p.name ≠ ".log") ∧
    (∀ (md5 : String → String) (ts : String), source_folder ∈ st.dirs →
      (organize_files md5 ts dry_run source_folder st).st.stats.processed =
        (snapshotFiles st.files source_folder).length) := by
  constructor
  · rw [create_category_folders_files]
    unfold snapshotFiles
    rw [List.mem_map]
    constructor
    · rintro ⟨e, he, rfl⟩
      rw [List.mem_filter] at he
      obtain ⟨hmem, hcond⟩ := he
      simp only [Bool.and_eq_true, beq_iff_eq, Bool.not_eq_true',
        beq_eq_false_iff_ne] at hcond
      refine ⟨⟨e.2, by simpa using hmem⟩, ?_, ?_, ?_⟩ <;> tauto
    · rintro ⟨⟨d, hd⟩, hdir, hhid, hlog⟩
      refine ⟨(p, d), ?_, rfl⟩
      rw [List.mem_filter]
      refine ⟨hd, ?_⟩
      simp [hdir, hhid, hlog]
  · intro md5 ts hsrc
    simp only [organize_files]
    rw [if_pos hsrc, create_category_folders_files]
    exact (foldl_process_inv md5 ts dry_run source_folder _ _).2.1

theorem organize_snapshot_spec_witness :
    "S" ∈ stC8.dirs ∧
    (organize_files md5c "T0" false "S" stC8).st.stats.processed =
      (snapshotFiles stC8.files "S").length :=
  ⟨by decide,
    (organize_snapshot_spec false "S" stC8 ⟨"S", "n.txt"⟩).2 md5c "T0" (by decide)⟩

/-- C8 counterexample: the snapshot filter excludes `.log` files (the log
file), not the report file — a pre-existing `organization_report.json`
directly inside the source folder is included in the set of files to
process, contradicting the claim's "non-report files". -/
theorem snapshot_includes_report_cex :
    (⟨"S", "organization_report.json"⟩ : FPath) ∈
      snapshotFiles [(⟨"S", "organization_report.json"⟩, ⟨1, some "r", 0⟩)] "S" ∧
    (⟨"S", "file_organizer.log"⟩ : FPath) ∉
      snapshotFiles [(⟨"S", "file_organizer.log"⟩, ⟨1, some "l", 0⟩)] "S" := by
  decide

/-! ### C3: the hash cache is append-only, never invalidated -/

theorem hashWithCache_cache_mono (md5 : String → String) (files : FS) (cache : Cache)
    (p k : FPath) (v : String) (h : cacheLookup cache k = some v) :
    cacheLookup (hashWithCache md5 files cache p).2 k = some v := by
  unfold hashWithCache
  cases hc : cacheLookup cache p with
  | some hsh => exact h
  | none => exact cacheLookup_append_of_some cache p (get_file_hash md5 files p) k v h

theorem is_exact_duplicate_cache_mono (md5 : String → String) (files : FS)
    (cache : Cache) (f1 f2 k : FPath) (v : String) (h : cacheLookup cache k = some v) :
    cacheLookup (is_exact_duplicate md5 files cache f1 f2).2 k = some v := by
  unfold is_exact_duplicate
  cases h1 : fsLookup files f1 with
  | none => cases h2 : fsLookup files f2 <;> exact h
  | some d1 =>
    cases h2 : fsLookup files f2 with
    | none => exact h
    | some d2 =>
      dsimp only
      by_cases hs : d1.size ≠ d2.size
      · rw [if_pos hs]; exact h
      · rw [if_neg hs]
        exact hashWithCache_cache_mono md5 files _ f2 k v
          (hashWithCache_cache_mono md5 files cache f1 k v h)

theorem guf_loop_cache_mono (md5 : String → String) (ts : String) (dry_run : Bool)
    (file_path : FPath) (target_folder base_name extension : String) :
    ∀ (fuel : Nat) (files : FS) (cache : Cache) (stats : Stats) (counter : Nat)
      (new_path k : FPath) (v : String), cacheLookup cache k = some v →
      cacheLookup (guf_loop md5 ts dry_run file_path target_folder base_name extension
        fuel files cache stats counter new_path).cache k = some v := by
  intro fuel
  induction fuel with
  | zero => intro files cache stats counter np k v h; exact h
  | succ fuel ih =>
    intro files cache stats counter np k v h
    simp only [guf_loop]
    by_cases h1 : (fsLookup files np).isSome
    · rw [if_pos h1]
      by_cases h2 : (is_exact_duplicate md5 files cache file_path np).1
      · rw [if_pos h2]
        by_cases h3 : dry_run
        · rw [if_pos h3]
          exact is_exact_duplicate_cache_mono md5 files cache file_path np k v h
        · rw [if_neg h3]
          by_cases h4 : (fsLookup files file_path).isSome
          · rw [if_pos h4]
            exact is_exact_duplicate_cache_mono md5 files cache file_path np k v h
          · rw [if_neg h4]
            exact is_exact_duplicate_cache_mono md5 files cache file_path np k v h
      · rw [if_neg h2]
        by_cases h5 : 100 < counter + 1
        · rw [if_pos h5]
          exact is_exact_duplicate_cache_mono md5 files cache file_path np k v h
        · rw [if_neg h5]
          exact ih files (is_exact_duplicate md5 files cache file_path np).2 stats
            (counter + 1)
            ⟨target_folder, base_name ++ "_" ++ toString counter ++ extension⟩ k v
            (is_exact_duplicate_cache_mono md5 files cache file_path np k v h)
    · rw [if_neg h1]; exact h

theorem get_unique_filename_cache_mono (md5 : String → String) (ts : String)
    (dry_run : Bool) (files : FS) (cache : Cache) (stats : Stats) (file_path : FPath)
    (target_folder : String) (k : FPath) (v : String)
    (h : cacheLookup cache k = some v) :
    cacheLookup (get_unique_filename md5 ts dry_run files cache stats file_path
      target_folder).cache k = some v :=
  guf_loop_cache_mono md5 ts dry_run file_path target_folder
    (splitExt file_path.name).1 (splitExt file_path.name).2 101 files cache stats 1
    ⟨target_folder, file_path.name⟩ k v h

theorem handle_category_cache_mono (md5 : String → String) (ts : String)
    (dry_run : Bool) (source_folder : String) (st : RunSt) (file_path : FPath)
    (category : String) (k : FPath) (v : String)
    (h : cacheLookup st.cache k = some v) :
    cacheLookup (handle_category md5 ts dry_run source_folder st file_path
      category).cache k = some v := by
  have hm := get_unique_filename_cache_mono md5 ts dry_run st.files st.cache st.stats
    file_path (source_folder ++ "/" ++ category) k v h
  simp only [handle_category]
  cases hres : (get_unique_filename md5 ts dry_run st.files st.cache st.stats file_path
      (source_folder ++ "/" ++ category)).result with
  | none => exact hm
  | some up =>
    dsimp only
    by_cases hd : dry_run
    · rw [if_pos hd]; exact hm
    · rw [if_neg hd]
      cases hlf : fsLookup (get_unique_filename md5 ts dry_run st.files st.cache st.stats
          file_path (source_folder ++ "/" ++ category)).files file_path with
      | some d => exact hm
      | none => exact hm

theorem process_file_cache_mono (md5 : String → String) (ts : String) (dry_run : Bool)
    (source_folder : String) (st : RunSt) (file_path : FPath) (k : FPath) (v : String)
    (h : cacheLookup st.cache k = some v) :
    cacheLookup (process_file md5 ts dry_run source_folder st file_path).cache k =
      some v := by
  unfold process_file
  rw [process_file_loop_eq_find]
  cases hf : categories.find?
      (fun kv => kv.2.contains (lowerStr (psuffix file_path.name))) with
  | none => exact h
  | some kv =>
    exact handle_category_cache_mono md5 ts dry_run source_folder st file_path kv.1 k v h

theorem foldl_process_cache_mono (md5 : String → String) (ts : String) (dry_run : Bool)
    (source_folder : String) :
    ∀ (l : List FPath) (st : RunSt) (k : FPath) (v : String),
      cacheLookup st.cache k = some v →
      cacheLookup ((l.foldl (process_file md5 ts dry_run source_folder) st)).cache k =
        some v := by
  intro l
  induction l with
  | nil => intro st k v h; exact h
  | cons p l ih =>
    intro st k v h
    simp only [List.foldl_cons]
    exact ih _ k v (process_file_cache_mono md5 ts dry_run source_folder st p k v h)

/-- C3 amended: the per-run hash cache is never invalidated — it is
append-only, so every entry present at any point of a run (in particular
one keyed by a path that is later unlinked as a duplicate or vacated by a
move) is still present, unchanged, when `organize_files` returns.  The
claim that entries are removed when their file is deleted or moved is
refuted by the counterexample. -/
theorem organize_cache_monotone (md5 : String → String) (ts : String) (dry_run : Bool)
    (source_folder : String) (st : RunSt) (k : FPath) (v : String)
    (h : cacheLookup st.cache k = some v) :
    cacheLookup (organize_files md5 ts dry_run source_folder st).st.cache k = some v := by
  simp only [organize_files]
  by_cases hsrc : source_folder ∈ st.dirs
  · rw [if_pos hsrc]
    refine foldl_process_cache_mono md5 ts dry_run source_folder _ _ k v ?_
    dsimp only
    rw [create_category_folders_cache]
    exact h
  · rw [if_neg hsrc]
    exact h

theorem organize_cache_monotone_witness :
    cacheLookup stC3w.cache ⟨"S", "old.bin"⟩ = some "x" ∧
    cacheLookup (organize_files md5c "T0" false "S" stC3w).st.cache ⟨"S", "old.bin"⟩ =
      some "x" :=
  ⟨by decide, organize_cache_monotone md5c "T0" false "S" stC3w ⟨"S", "old.bin"⟩ "x"
    (by decide)⟩

/-- C3 counterexample: running the organizer on a source file that is an
exact duplicate of the pre-existing `Images/a.jpg` deletes the source file,
yet the hash cache still holds the entry keyed by the deleted path — the
stale entry is not removed. -/
theorem hash_cache_stale_cex :
    fsLookup (organize_files md5c "T0" false "S" stC3).st.files ⟨"S", "a.jpg"⟩ = none ∧
    cacheLookup (organize_files md5c "T0" false "S" stC3).st.cache ⟨"S", "a.jpg"⟩ =
      some (md5c "Z") := by
  decide

/-! ### C1: preview (dry-run) statistics versus a real run -/

/-- In dry-run mode `create_category_folders` creates nothing at all. -/
theorem create_category_folders_dry (source_folder : String) (st : RunSt) :
    create_category_folders true source_folder st = st := by
  unfold create_category_folders
  have hfold : ∀ (l : List (String × List String)) (ds : List String),
      l.foldl (fun ds cat =>
        if (source_folder ++ "/" ++ cat.1) ∈ ds then ds
        else if true then ds
        else ds ++ [source_folder ++ "/" ++ cat.1]) ds = ds := by
    intro l
    induction l with
    | nil => intro ds; rfl
    | cons c l ih =>
      intro ds
      have hstep : (if (source_folder ++ "/" ++ c.1) ∈ ds then ds
          else if true then ds
          else ds ++ [source_folder ++ "/" ++ c.1]) = ds := by
        by_cases hP : (source_folder ++ "/" ++ c.1) ∈ ds
        · rw [if_pos hP]
        · rw [if_neg hP, if_pos rfl]
      rw [List.foldl_cons]
      show List.foldl (fun ds cat =>
        if (source_folder ++ "/" ++ cat.1) ∈ ds then ds
        else if true then ds
        else ds ++ [source_folder ++ "/" ++ cat.1])
        (if (source_folder ++ "/" ++ c.1) ∈ ds then ds
          else if true then ds
          else ds ++ [source_folder ++ "/" ++ c.1]) l = ds
      rw [hstep]
      exact ih ds
  rw [hfold]

/-- C1 counterexample: on a concrete initial file set (two byte-identical
source files plus a pre-existing different occupant of `Images/a.jpg`) the
preview run and the real run produce different statistics: the real run
ends with `moved = renamed = duplicates_found = duplicates_removed = 1`
while the preview leaves all four at zero. -/
theorem dry_run_stats_differ_cex :
    (organize_files md5c "T0" false "S" stC1).st.stats ≠
      (organize_files md5c "T0" true "S" stC1).st.stats := by
  decide

/-- C1 amended: a preview (dry-run) of `organize_files` performs no
filesystem mutation (files and directories are unchanged) and writes no
report; it returns the same success flag and computes the same `processed`
and `skipped` counters as the real run on the same initial state, but its
`moved`, `renamed`, `duplicates_removed` and `errors` counters keep their
initial values instead of being computed as if the actions had occurred
(and `duplicates_found` can also differ from the real run, whose mutations
change later collision checks — see the counterexample). -/
theorem organize_dry_run_amended (md5 : String → String) (ts : String)
    (source_folder : String) (reportData : FileData) (st : RunSt) :
    (organize_files md5 ts true source_folder st).st.files = st.files ∧
    (organize_files md5 ts true source_folder st).st.dirs = st.dirs ∧
    (organize_files md5 ts true source_folder st).ok =
      (organize_files md5 ts false source_folder st).ok ∧
    (organize_files md5 ts true source_folder st).st.stats.processed =
      (organize_files md5 ts false source_folder st).st.stats.processed ∧
    (organize_files md5 ts true source_folder st).st.stats.skipped =
      (organize_files md5 ts false source_folder st).st.stats.skipped ∧
    (organize_files md5 ts true source_folder st).st.stats.moved = st.stats.moved ∧
    (organize_files md5 ts true source_folder st).st.stats.renamed = st.stats.renamed ∧
    (organize_files md5 ts true source_folder st).st.stats.duplicates_removed =
      st.stats.duplicates_removed ∧
    (organize_files md5 ts true source_folder st).st.stats.errors = st.stats.errors ∧
    save_report true source_folder reportData
        (organize_files md5 ts true source_folder st).st =
      (organize_files md5 ts true source_folder st).st := by
  have hsave : ∀ s : RunSt, save_report true source_folder reportData s = s :=
    fun s => rfl
  simp only [organize_files]
  by_cases hsrc : source_folder ∈ st.dirs
  · rw [if_pos hsrc, if_pos hsrc, create_category_folders_dry source_folder st,
      create_category_folders_files false source_folder st,
      create_category_folders_stats false source_folder st,
      create_category_folders_cache false source_folder st]
    have hD := foldl_process_dry_inv md5 ts source_folder
      (snapshotFiles st.files source_folder)
      { st with stats := { st.stats with
          processed := (snapshotFiles st.files source_folder).length } }
    have hDp := foldl_process_inv md5 ts true source_folder
      (snapshotFiles st.files source_folder)
      { st with stats := { st.stats with
          processed := (snapshotFiles st.files source_folder).length } }
    have hRp := foldl_process_inv md5 ts false source_folder
      (snapshotFiles st.files source_folder)
      ⟨st.files, (create_category_folders false source_folder st).dirs, st.cache,
        { st.stats with processed := (snapshotFiles st.files source_folder).length }⟩
    exact ⟨hD.1, hD.2.1, rfl, hDp.2.1.trans hRp.2.1.symm,
      hDp.2.2.trans hRp.2.2.symm, hD.2.2.1, hD.2.2.2.1, hD.2.2.2.2.1,
      hD.2.2.2.2.2, hsave _⟩
  · rw [if_neg hsrc, if_neg hsrc]
    exact ⟨rfl, rfl, rfl, rfl, rfl, rfl, rfl, rfl, rfl, hsave _⟩

/-! ### C7: bulk deduplication keeps one representative per group -/

theorem deleteRest_lookup_preserved (dry_run : Bool) (p : FPath) :
    ∀ (rest : List (FPath × Nat)) (acc : FS × Nat),
      p ∉ rest.map (fun q => q.1) →
      fsLookup (rest.foldl (fun acc pr =>
        if dry_run then acc
        else if (fsLookup acc.1 pr.1).isSome then (fsRemove acc.1 pr.1, acc.2 + 1)
        else acc) acc).1 p = fsLookup acc.1 p := by
  intro rest
  induction rest with
  | nil => intro acc _; rfl
  | cons pr rest ih =>
    intro acc hmem
    rw [List.map_cons, List.mem_cons] at hmem
    push_neg at hmem
    rw [List.foldl_cons, ih _ hmem.2]
    show fsLookup (if dry_run then acc
      else if (fsLookup acc.1 pr.1).isSome then (fsRemove acc.1 pr.1, acc.2 + 1)
      else acc).1 p = fsLookup acc.1 p
    by_cases hd : dry_run
    · rw [if_pos hd]
    · rw [if_neg hd]
      by_cases hex : (fsLookup acc.1 pr.1).isSome
      · rw [if_pos hex]
        exact fsLookup_fsRemove_ne acc.1 pr.1 p (fun h => hmem.1 h.symm)
      · rw [if_neg hex]

/-- C7: for every duplicate group found by the bulk pass,
`remove_duplicates` orders the group by modification time ascending
(reversing the order when the newest copy is to be kept), retains exactly
the head of that order — the oldest member when `keep_oldest`, the newest
otherwise — and attempts to delete only the remaining members, so the
retained member of every group always survives. -/
theorem remove_duplicates_group_survivor (dry_run keep_oldest : Bool) (files : FS)
    (group : List FPath) (kept : FPath × Nat) (rest : List (FPath × Nat))
    (horder : groupOrder keep_oldest files group = kept :: rest)
    (hnd : group.Nodup) :
    kept.1 ∈ group ∧
    (keep_oldest = true → ∀ p ∈ group, kept.2 ≤ mtimeOf files p) ∧
    (keep_oldest = false → ∀ p ∈ group, mtimeOf files p ≤ kept.2) ∧
    (∀ p ∈ group, p = kept.1 ∨ p ∈ rest.map (fun q => q.1)) ∧
    (∀ q ∈ rest, q.1 ∈ group ∧ q.1 ≠ kept.1) ∧
    processGroup dry_run keep_oldest files group = deleteRest dry_run files rest ∧
    fsLookup (processGroup dry_run keep_oldest files group).1 kept.1 =
      fsLookup files kept.1 := by
  have hperm : List.Perm (kept :: rest) (group.map (fun p => (p, mtimeOf files p))) := by
    rw [← horder]
    unfold groupOrder
    cases keep_oldest
    · exact (List.reverse_perm _).trans (List.perm_insertionSort _ _)
    · exact List.perm_insertionSort _ _
  have hfst : ∀ q ∈ (kept :: rest), q.1 ∈ group ∧ q.2 = mtimeOf files q.1 := by
    intro q hq
    obtain ⟨p, hp, hpe⟩ := List.mem_map.mp (hperm.subset hq)
    constructor
    · rw [← hpe]; exact hp
    · rw [← hpe]
  have hback : ∀ p ∈ group, (p, mtimeOf files p) ∈ (kept :: rest) := fun p hp =>
    hperm.mem_iff.mpr (List.mem_map_of_mem _ hp)
  have hkept1 : kept.1 ∈ group := (hfst kept (List.mem_cons_self _ _)).1
  have hndfst : ((kept :: rest).map (fun q => q.1)).Nodup := by
    have hpm : List.Perm ((kept :: rest).map (fun q => q.1))
        (((group.map (fun p => (p, mtimeOf files p))).map (fun q => q.1))) :=
      hperm.map _
    refine hpm.nodup_iff.mpr ?_
    rw [List.map_map]
    have hcomp : ((fun q : FPath × Nat => q.1) ∘ fun p => (p, mtimeOf files p)) =
        fun p => p := rfl
    rw [hcomp, List.map_id']
    exact hnd
  have hknotin : kept.1 ∉ rest.map (fun q => q.1) := by
    rw [List.map_cons] at hndfst
    exact (List.nodup_cons.mp hndfst).1
  have hsorted : List.Pairwise mtLE
      (List.insertionSort mtLE (group.map (fun p => (p, mtimeOf files p)))) :=
    List.sorted_insertionSort mtLE _
  have hordered : (keep_oldest = true → ∀ q ∈ rest, kept.2 ≤ q.2) ∧
      (keep_oldest = false → ∀ q ∈ rest, q.2 ≤ kept.2) := by
    cases keep_oldest
    · constructor
      · intro hk; exact absurd hk (by simp)
      · intro _
        have hrev : (List.insertionSort mtLE
            (group.map (fun p => (p, mtimeOf files p)))).reverse = kept :: rest := by
          rw [← horder]
          rfl
        have hs2 : List.Pairwise mtLE ((kept :: rest).reverse) := by
          rw [← hrev, List.reverse_reverse]
          exact hsorted
        have hs3 : List.Pairwise (fun a b => mtLE b a) (kept :: rest) :=
          List.pairwise_reverse.mp hs2
        intro q hq
        exact (List.pairwise_cons.mp hs3).1 q hq
    · constructor
      · intro _
        have hsor : List.insertionSort mtLE
            (group.map (fun p => (p, mtimeOf files p))) = kept :: rest := by
          rw [← horder]
          rfl
        rw [hsor] at hsorted
        intro q hq
        exact (List.pairwise_cons.mp hsorted).1 q hq
      · intro hk; exact absurd hk (by simp)
  refine ⟨hkept1, ?_, ?_, ?_, ?_, ?_, ?_⟩
  · intro hk p hp
    rcases List.mem_cons.mp (hback p hp) with heq | hmem
    · rw [← heq]
    · exact hordered.1 hk (p, mtimeOf files p) hmem
  · intro hk p hp
    rcases List.mem_cons.mp (hback p hp) with heq | hmem
    · rw [← heq]
    · exact hordered.2 hk (p, mtimeOf files p) hmem
  · intro p hp
    rcases List.mem_cons.mp (hback p hp) with heq | hmem
    · left; rw [← heq]
    · right; exact List.mem_map_of_mem _ hmem
  · intro q hq
    refine ⟨(hfst q (List.mem_cons_of_mem _ hq)).1, ?_⟩
    intro hcontra
    exact hknotin (hcontra ▸ List.mem_map_of_mem (fun q => q.1) hq)
  · unfold processGroup
    rw [horder]
  · unfold processGroup
    rw [horder]
    exact deleteRest_lookup_preserved dry_run kept.1 rest (files, 0) hknotin

theorem remove_duplicates_group_survivor_witness :
    groupOrder true fsC7 grpC7 = (⟨"S", "y"⟩, 3) :: [(⟨"S", "x"⟩, 5)] ∧
    grpC7.Nodup ∧
    fsLookup (processGroup false true fsC7 grpC7).1 ⟨"S", "y"⟩ =
      fsLookup fsC7 ⟨"S", "y"⟩ :=
  ⟨by decide, by decide,
    (remove_duplicates_group_survivor false true fsC7 grpC7 (⟨"S", "y"⟩, 3)
      [(⟨"S", "x"⟩, 5)] (by decide) (by decide)).2.2.2.2.2.2⟩

end Organizer
